import Mathlib

/-!
A shallow embedding of `kmodui.py`, an interactive inspector/editor for
kernel module parameters, together with theorems about its read-side
aggregation (three source readers merged into one module model), its fuzzy
filter, and its guarded edit workflow.

The filesystem and the external `modinfo` tool are modelled explicitly by
an `Fs` state: a Python operation that can raise is represented with
`Option` (`none` = the read raised), and every embedded function is total.
-/

namespace KModUI

/-! ### String helpers modelling Python string operations

These are written directly over the character list `String.data` with
structural recursion, so that every embedded function evaluates inside the
kernel on concrete inputs. -/

/-- Python `s.strip()`: drop leading and trailing whitespace. -/
def pyStrip (s : String) : String :=
  ⟨((s.data.dropWhile Char.isWhitespace).reverse.dropWhile
      Char.isWhitespace).reverse⟩

/-- Helper for `pySplitWs`: cut the character stream at whitespace,
accumulating the current (reversed) token. -/
def splitWsGo : List Char → List Char → List String
  | [], acc => [⟨acc.reverse⟩]
  | c :: cs, acc =>
    if c.isWhitespace then ⟨acc.reverse⟩ :: splitWsGo cs []
    else splitWsGo cs (c :: acc)

/-- Python `s.split()`: split on runs of whitespace, dropping empty pieces. -/
def pySplitWs (s : String) : List String :=
  (splitWsGo s.data []).filter (fun t => t ≠ "")

/-- Python `s.startswith(p)`. -/
def pyStartsWith (s p : String) : Bool := p.data.isPrefixOf s.data

/-- Python `s.endswith(p)`. -/
def pyEndsWith (s p : String) : Bool := p.data.isSuffixOf s.data

/-- Python `c in s` for a single character `c`. -/
def pyContains (s : String) (c : Char) : Bool := s.data.contains c

/-- Helper for `splitFirst`, working on the character list. -/
def splitFirstAux (c : Char) : List Char → Option (List Char × List Char)
  | [] => none
  | x :: xs =>
    if x = c then some ([], xs)
    else
      match splitFirstAux c xs with
      | none => none
      | some (a, b) => some (x :: a, b)

/-- Python `s.split(c, 1)` guarded by `c in s`: the part before the first
occurrence of `c` and the part after it; `none` when `c` does not occur. -/
def splitFirst (s : String) (c : Char) : Option (String × String) :=
  match splitFirstAux c s.data with
  | none => none
  | some (a, b) => some (⟨a⟩, ⟨b⟩)

/-! ### The `STRINGS` table (the entries the core logic uses) -/

def unreadableStr : String := "<Unreadable>"

def noDescStr : String := "No description available."

def warnSelectParam : String := "Select a parameter on the right using the arrow keys"

def warnNotWritable (name : String) : String :=
  "Parameter " ++ name ++ " is not writable at runtime"

def okUpdated (name value : String) : String :=
  "Updated: " ++ name ++ " = " ++ value

def errWrite (error : String) : String := "Error: " ++ error

/-! ### Filesystem / external-tool state -/

/-- One directory entry of `/sys/module/<m>/parameters`.  `content = none`
means `read_text()` raises for this entry. -/
structure SysfsEntry where
  name : String
  isFile : Bool
  mode : Nat
  content : Option String
deriving DecidableEq, Repr

/-- One file of `/etc/modprobe.d`.  `content = none` means `read_text()`
raises; otherwise the file is given as its list of lines (`splitlines`). -/
structure ConfFile where
  name : String
  content : Option (List String)
deriving DecidableEq, Repr

/-- The world state the readers consult: the parameter directory of each
module (`none` = the directory does not exist), the output lines of
`modinfo -p` (`none` = missing tool / nonzero exit / raised), and the
listing of `/etc/modprobe.d` (`none` = the directory does not exist). -/
structure Fs where
  paramDir : String → Option (List SysfsEntry)
  modinfo : String → Option (List String)
  modprobeD : Option (List ConfFile)

/-! ### Live parameter reader (`read_sysfs_params`) -/

/-- The partial parameter record built by `read_sysfs_params`. -/
structure Param where
  name : String
  current : String
  writable : Bool
  path : String
deriving DecidableEq, Repr

/-- The record `read_sysfs_params` appends for one directory entry:
`current` is the trimmed file content or the `<Unreadable>` sentinel when
the read raised; `writable` is `mode & 0o222 != 0`. -/
def sysfsRecord (module : String) (e : SysfsEntry) : Param :=
  { name := e.name
    current :=
      match e.content with
      | some s => pyStrip s
      | none => unreadableStr
    writable := decide (e.mode.land 0o222 ≠ 0)
    path := "/sys/module/" ++ module ++ "/parameters/" ++ e.name }

/-- The sort key of `sorted(param_dir.iterdir(), key=lambda x: x.name)`. -/
def byName (a b : SysfsEntry) : Bool := decide (a.name ≤ b.name)

/-- `read_sysfs_params`: empty when the parameter directory is missing;
otherwise the entries sorted by name, non-files skipped, each remaining
entry turned into its record. -/
def read_sysfs_params (fs : Fs) (module : String) : List Param :=
  match fs.paramDir module with
  | none => []
  | some entries =>
    ((entries.mergeSort byName).filter (fun e => e.isFile)).map (sysfsRecord module)

/-! ### Documentation reader (`get_modinfo_details`) -/

/-- Python `dict` assignment `d[k] = v`: overwrite in place when the key is
present, otherwise append (insertion order preserved). -/
def dictSet (d : List (String × String)) (k v : String) : List (String × String) :=
  if d.any (fun p => decide (p.1 = k)) then
    d.map (fun p => if p.1 = k then (k, v) else p)
  else d ++ [(k, v)]

/-- Python `d.get(k)` on an insertion-ordered dict modelled as an
association list with unique keys. -/
def dlookup {α : Type} (d : List (String × α)) (k : String) : Option α :=
  (d.find? (fun p => decide (p.1 = k))).map (fun p => p.2)

/-- One line of `modinfo -p` output: `name:description` shaped lines are
recorded (stripped on both sides), anything else is skipped. -/
def processModinfoLine (out : List (String × String)) (line : String) :
    List (String × String) :=
  let clean := pyStrip line
  if clean = "" then out
  else if pyContains clean ':' then
    match splitFirst clean ':' with
    | none => out
    | some (name, desc) => dictSet out (pyStrip name) (pyStrip desc)
  else out

/-- `get_modinfo_details`: empty mapping on tool failure, otherwise the
parsed `name → description` mapping. -/
def get_modinfo_details (fs : Fs) (module : String) : List (String × String) :=
  match fs.modinfo module with
  | none => []
  | some lines => lines.foldl processModinfoLine []

/-! ### Persisted config reader (`get_etc_configs`) -/

/-- One persisted override: the value text after the first `=`, the origin
file name, and the stripped directive line. -/
structure OverrideEntry where
  value : String
  file : String
  line : String
deriving DecidableEq, Repr

/-- Python `configs.setdefault(k, []).append(e)`. -/
def dictAppend (d : List (String × List OverrideEntry)) (k : String)
    (e : OverrideEntry) : List (String × List OverrideEntry) :=
  if d.any (fun p => decide (p.1 = k)) then
    d.map (fun p => if p.1 = k then (p.1, p.2 ++ [e]) else p)
  else d ++ [(k, [e])]

/-- One `key=value` candidate token of a matched `options` line: tokens
without `=` are ignored, the rest are appended under their key. -/
def processConfToken (fileName line : String)
    (cfgs : List (String × List OverrideEntry)) (part : String) :
    List (String × List OverrideEntry) :=
  match splitFirst part '=' with
  | none => cfgs
  | some (pName, pValue) => dictAppend cfgs pName ⟨pValue, fileName, line⟩

/-- One line of a config file: blank and `#` lines are skipped; a line
whose whitespace tokens start `options <module> …` with at least three
tokens contributes its remaining `key=value` tokens in order. -/
def processConfLine (module fileName : String)
    (cfgs : List (String × List OverrideEntry)) (raw : String) :
    List (String × List OverrideEntry) :=
  let line := pyStrip raw
  if line = "" then cfgs
  else if pyStartsWith line "#" then cfgs
  else
    let parts := pySplitWs line
    if 3 ≤ parts.length ∧ parts.getD 0 "" = "options" ∧ parts.getD 1 "" = module then
      (parts.drop 2).foldl (processConfToken fileName line) cfgs
    else cfgs

/-- `get_etc_configs`: empty when `/etc/modprobe.d` is missing; otherwise
fold the `*.conf` files in listing order, skipping a file whose read
raises, and within a file fold its lines in order. -/
def get_etc_configs (fs : Fs) (module : String) :
    List (String × List OverrideEntry) :=
  match fs.modprobeD with
  | none => []
  | some files =>
    (files.filter (fun f => pyEndsWith f.name ".conf")).foldl
      (fun cfgs f =>
        match f.content with
        | none => cfgs
        | some lines => lines.foldl (processConfLine module f.name) cfgs)
      []

/-! ### Model builder (`get_module_model`) -/

/-- A fully merged parameter record. -/
structure MergedParam where
  name : String
  current : String
  writable : Bool
  path : String
  desc : String
  persistent : List OverrideEntry
deriving DecidableEq, Repr

/-- The per-module model. -/
structure ModuleModel where
  module : String
  params : List MergedParam
deriving DecidableEq, Repr

/-- `get_module_model`: fan out to the three readers and annotate every
live parameter with its description (sentinel when absent) and its
persisted overrides (empty when absent). -/
def get_module_model (fs : Fs) (module : String) : ModuleModel :=
  let descs := get_modinfo_details fs module
  let etc := get_etc_configs fs module
  let params := read_sysfs_params fs module
  { module := module
    params := params.map (fun p =>
      { name := p.name
        current := p.current
        writable := p.writable
        path := p.path
        desc := (dlookup descs p.name).getD noDescStr
        persistent := (dlookup etc p.name).getD [] }) }

/-! ### Fuzzy filter (`on_input_changed`, search branch) -/

/-- Descending order on fuzzy scores, ties keeping the earlier candidate
first (the stable `sorted(..., reverse=True)` order used by
`process.extract`). -/
def byScoreDesc (a b : String × Nat) : Bool := decide (b.2 ≤ a.2)

/-- `process.extract(q, choices, limit=n)`: score every choice with the
similarity metric, order by descending score (stably), keep the first
`n`. The metric itself is an external library, passed in as `score`. -/
def extractTop (score : String → String → Nat) (q : String)
    (choices : List String) (limit : Nat) : List (String × Nat) :=
  ((choices.map (fun c => (c, score q c))).mergeSort byScoreDesc).take limit

/-- The search handler's filtering logic: strip the query; an empty result
shows all modules; otherwise rank the top 200 fuzzy matches, keep those at
or above the length-dependent threshold, and fall back to the top 20 when
the threshold removes everything. -/
def filter_modules (score : String → String → Nat) (raw : String)
    (allModules : List String) : List String :=
  let q := pyStrip raw
  if q = "" then allModules
  else
    let results := extractTop score q allModules 200
    let threshold := if 2 ≤ q.length then 65 else 50
    let ranked := (results.filter (fun r => decide (threshold ≤ r.2))).map Prod.fst
    if ranked = [] then (results.take 20).map Prod.fst else ranked

/-! ### Edit workflow (`action_edit_parameter` / `check_edit`) -/

/-- A notification shown to the user: message text and severity. -/
structure Notification where
  message : String
  severity : String
deriving DecidableEq, Repr

/-- The app state the edit workflow touches: the world, the currently
displayed model, and the notifications emitted so far. -/
structure AppState where
  fs : Fs
  current_model : ModuleModel
  notifications : List Notification

/-- The `check_edit` callback run when the edit modal closes.  `write`
models `Path(...).write_text`: it either yields the new world state or
raises with a cause message.  `none` is the Cancel outcome. -/
def check_edit (write : Fs → String → String → Except String Fs)
    (st : AppState) (p : MergedParam) (newValue : Option String) : AppState :=
  match newValue with
  | none => st
  | some v =>
    match write st.fs p.path v with
    | .error e =>
      { st with notifications := st.notifications ++ [⟨errWrite e, "error"⟩] }
    | .ok fs' =>
      { fs := fs'
        current_model := get_module_model fs' st.current_model.module
        notifications := st.notifications ++ [⟨okUpdated p.name v, "information"⟩] }

/-- `action_edit_parameter` combined with the modal outcome it installs:
`sel = none` models `plist.index is None`; `sel = some none` a selected
row without `param_data`; `sel = some (some p)` a selected parameter.
`userInput` is what the modal would return were it opened; it is consulted
only on the writable path, where `check_edit` runs. -/
def edit_workflow (write : Fs → String → String → Except String Fs)
    (st : AppState) (sel : Option (Option MergedParam))
    (userInput : Option String) : AppState :=
  match sel with
  | none =>
    { st with notifications := st.notifications ++ [⟨warnSelectParam, "warning"⟩] }
  | some none => st
  | some (some p) =>
    if p.writable then check_edit write st p userInput
    else
      { st with notifications :=
          st.notifications ++ [⟨warnNotWritable p.name, "warning"⟩] }

/-! ### Sample inputs used by witnesses -/

def sampleFs : Fs := ⟨fun _ => none, fun _ => none, none⟩

def sampleEntry : SysfsEntry := ⟨"p0", true, 0o644, some "1\n"⟩

def sampleFs2 : Fs :=
  ⟨fun m => if m = "mod" then some [sampleEntry] else none, fun _ => none, none⟩

def sampleModel : ModuleModel := ⟨"mod", []⟩

def sampleState : AppState := ⟨sampleFs, sampleModel, []⟩

def sampleParam (w : Bool) : MergedParam :=
  ⟨"p0", "1", w, "/sys/module/mod/parameters/p0", "d", []⟩

def failWrite : Fs → String → String → Except String Fs :=
  fun _ _ _ => .error "Permission denied"

def okWrite : Fs → String → String → Except String Fs :=
  fun fs _ _ => .ok fs

/-! ### Definitions used by specific theorems (scenario constructions,
the spec's flattened view of the persisted-config reader, and sample
inputs for witnesses) -/

/-- The entry named `n` with its content made unreadable; other entries
untouched. -/
def blankEntry (n : String) (e : SysfsEntry) : SysfsEntry :=
  if e.name = n then { e with content := none } else e

/-- The world `fs` where, inside module `m`'s parameter directory `es`,
every entry named `n` fails its value read. -/
def blankFs (fs : Fs) (m n : String) (es : List SysfsEntry) : Fs :=
  { fs with paramDir := fun k =>
      if k = m then some (es.map (blankEntry n)) else fs.paramDir k }

/-- The record named `n` with its value replaced by the sentinel. -/
def blankRecord (n : String) (p : Param) : Param :=
  if p.name = n then { p with current := unreadableStr } else p

/-- The `(key, entry)` contribution of one token of a matched directive
line: nothing without `=`, else the key with `{value = text after the
first =, originFile, rawLine = trimmed line}`. -/
def tokenOverride (fileName line : String) (part : String) :
    List (String × OverrideEntry) :=
  match splitFirst part '=' with
  | none => []
  | some pr => [(pr.1, ⟨pr.2, fileName, line⟩)]

/-- Modelled on the spec's §4.4 line rule, flattened: blank and `#` lines
contribute nothing, as do lines with fewer than 3 whitespace tokens or
whose first two tokens are not exactly `options <module>`; a matching line
contributes its remaining tokens' overrides in token order. -/
def lineOverrides (module fileName : String) (raw : String) :
    List (String × OverrideEntry) :=
  let line := pyStrip raw
  if line = "" then []
  else if pyStartsWith line "#" then []
  else
    let parts := pySplitWs line
    if 3 ≤ parts.length ∧ parts.getD 0 "" = "options" ∧ parts.getD 1 "" = module then
      (parts.drop 2).flatMap (tokenOverride fileName line)
    else []

/-- The contributions of one config file: none when its read raises,
otherwise its lines' contributions in line order. -/
def fileOverrides (module : String) (f : ConfFile) :
    List (String × OverrideEntry) :=
  match f.content with
  | none => []
  | some lines => lines.flatMap (lineOverrides module f.name)

/-- The entries under key `k`, in order. -/
def keyed (k : String) (l : List (String × OverrideEntry)) :
    List OverrideEntry :=
  (l.filter (fun pr => decide (pr.1 = k))).map (fun pr => pr.2)

/-- The spec's per-key view of the persisted overrides: all entries for
`k` contributed by readable `*.conf` files, in file order then line order
then token order. -/
def specOverrides (module : String) (files : List ConfFile) (k : String) :
    List OverrideEntry :=
  keyed k
    ((files.filter (fun f => pyEndsWith f.name ".conf")).flatMap
      (fileOverrides module))

def sampleConfFiles : List ConfFile :=
  [⟨"a.conf", some ["options e1000e InterruptThrottleRate=3000"]⟩,
   ⟨"broken.conf", none⟩,
   ⟨"notes.txt", some ["options e1000e InterruptThrottleRate=9"]⟩]

def sampleEtcFs : Fs := ⟨fun _ => none, fun _ => none, some sampleConfFiles⟩

/-! ### Theorems -/

/-- C9: for every module list `M` and every query that is empty or
whitespace-only (its strip is empty), the filter returns `M` itself,
unchanged and in its original order. -/
theorem empty_query_identity (score : String → String → Nat) (raw : String)
    (M : List String) (h : pyStrip raw = "") :
    filter_modules score raw M = M := by
  simp [filter_modules, h]

theorem empty_query_identity_witness :
    (pyStrip " \t " = "") ∧
      filter_modules (fun _ q => q.length) " \t " ["snd", "fst"] = ["snd", "fst"] :=
  ⟨by decide, empty_query_identity (fun _ q => q.length) " \t " ["snd", "fst"] (by decide)⟩

/-- C10: the filter depends on the query only through its stripped form
(leading/trailing whitespace is removed before use), and the threshold is
chosen from the stripped query's length: when the stripped query has
length 1 the threshold applied is 50, not 65, however long the raw query
was. -/
theorem threshold_on_stripped_query (score : String → String → Nat)
    (M : List String) :
    (∀ q₁ q₂ : String, pyStrip q₁ = pyStrip q₂ →
        filter_modules score q₁ M = filter_modules score q₂ M)
    ∧ (∀ q : String, (pyStrip q).length = 1 →
        filter_modules score q M =
          (let results := extractTop score (pyStrip q) M 200
           let ranked := (results.filter (fun r => decide (50 ≤ r.2))).map Prod.fst
           if ranked = [] then (results.take 20).map Prod.fst else ranked)) := by
  constructor
  · intro q₁ q₂ h
    simp only [filter_modules, h]
  · intro q h
    have hne : pyStrip q ≠ "" := by
      intro he
      rw [he] at h
      simp at h
    have h2 : ¬ (2 ≤ (pyStrip q).length) := by omega
    unfold filter_modules
    rw [if_neg hne, if_neg h2]

theorem threshold_on_stripped_query_witness :
    (filter_modules (fun _ c => c.length) "  a " ["bb", "ccc"]
        = filter_modules (fun _ c => c.length) "a" ["bb", "ccc"])
    ∧ filter_modules (fun _ c => c.length) "  a " ["bb", "ccc"] =
        (let results := extractTop (fun _ c => c.length) (pyStrip "  a ") ["bb", "ccc"] 200
         let ranked := (results.filter (fun r => decide (50 ≤ r.2))).map Prod.fst
         if ranked = [] then (results.take 20).map Prod.fst else ranked) :=
  ⟨(threshold_on_stripped_query (fun _ c => c.length) ["bb", "ccc"]).1 "  a " "a" (by decide),
   (threshold_on_stripped_query (fun _ c => c.length) ["bb", "ccc"]).2 "  a " (by decide)⟩

/-- C5: `get_module_model` is total (in this embedding every source
failure is part of the state, not an exception): it returns a model for
the requested module for any world state, and when all three sources are
absent the model's parameter list is empty. -/
theorem buildModel_total (fs : Fs) (m : String) :
    (get_module_model fs m).module = m
    ∧ (fs.paramDir m = none → fs.modinfo m = none → fs.modprobeD = none →
        get_module_model fs m = ⟨m, []⟩) := by
  refine ⟨rfl, fun h1 _ _ => ?_⟩
  simp [get_module_model, read_sysfs_params, h1]

theorem buildModel_total_witness :
    (get_module_model sampleFs "mod").module = "mod"
    ∧ get_module_model sampleFs "mod" = ⟨"mod", []⟩ :=
  ⟨(buildModel_total sampleFs "mod").1,
   (buildModel_total sampleFs "mod").2 rfl rfl rfl⟩

/-- C6: every record produced by `read_sysfs_params` comes from a file
entry via `sysfsRecord`, and `sysfsRecord`'s `writable` field is true iff
some write-permission bit (`mode & 0o222`) is set — independent of the
entry's content (i.e. of whether the value read succeeded). -/
theorem writable_from_permission_bits (fs : Fs) (m : String)
    (es : List SysfsEntry) (h : fs.paramDir m = some es) :
    (∀ p ∈ read_sysfs_params fs m, ∃ e ∈ es, e.isFile = true ∧ p = sysfsRecord m e)
    ∧ (∀ e : SysfsEntry,
        ((sysfsRecord m e).writable = true ↔ e.mode.land 0o222 ≠ 0)
        ∧ ∀ c, (sysfsRecord m { e with content := c }).writable
            = (sysfsRecord m e).writable) := by
  constructor
  · intro p hp
    simp only [read_sysfs_params, h, List.mem_map, List.mem_filter,
      List.mem_mergeSort] at hp
    obtain ⟨e, ⟨he, hf⟩, hpe⟩ := hp
    exact ⟨e, he, hf, hpe.symm⟩
  · intro e
    refine ⟨?_, fun c => rfl⟩
    simp [sysfsRecord]

theorem writable_from_permission_bits_witness :
    (∀ p ∈ read_sysfs_params sampleFs2 "mod",
        ∃ e ∈ [sampleEntry], e.isFile = true ∧ p = sysfsRecord "mod" e)
    ∧ (∀ e : SysfsEntry,
        ((sysfsRecord "mod" e).writable = true ↔ e.mode.land 0o222 ≠ 0)
        ∧ ∀ c, (sysfsRecord "mod" { e with content := c }).writable
            = (sysfsRecord "mod" e).writable) :=
  writable_from_permission_bits sampleFs2 "mod" [sampleEntry] rfl

/-- C2: once the edit prompt closes: Cancel (`none`) leaves the whole
state — in particular the displayed model — unchanged; a failing write
leaves the filesystem and model unchanged and emits an error containing
the underlying cause; a successful write emits a confirmation containing
the parameter name and the written value and unconditionally rebuilds the
owning module's model from a fresh read of the three sources in the new
world state. -/
theorem check_edit_outcomes (write : Fs → String → String → Except String Fs)
    (st : AppState) (p : MergedParam) :
    check_edit write st p none = st
    ∧ (∀ v e, write st.fs p.path v = .error e →
        check_edit write st p (some v) =
          { st with notifications := st.notifications ++ [⟨errWrite e, "error"⟩] }
        ∧ ∃ a b, errWrite e = a ++ e ++ b)
    ∧ (∀ v fs', write st.fs p.path v = .ok fs' →
        check_edit write st p (some v) =
          { fs := fs'
            current_model := get_module_model fs' st.current_model.module
            notifications :=
              st.notifications ++ [⟨okUpdated p.name v, "information"⟩] }
        ∧ (∃ a b, okUpdated p.name v = a ++ p.name ++ b)
        ∧ (∃ a b, okUpdated p.name v = a ++ v ++ b)) := by
  refine ⟨rfl, fun v e h => ⟨?_, "Error: ", "", by simp [errWrite]⟩,
    fun v fs' h => ⟨?_, ⟨"Updated: ", " = " ++ v, ?_⟩,
      ⟨"Updated: " ++ p.name ++ " = ", "", by simp [okUpdated]⟩⟩⟩
  · simp [check_edit, h]
  · simp [check_edit, h]
  · simp [okUpdated, String.append_assoc]

theorem check_edit_outcomes_witness :
    check_edit failWrite sampleState (sampleParam true) none = sampleState
    ∧ (check_edit failWrite sampleState (sampleParam true) (some "2") =
        { sampleState with notifications :=
            sampleState.notifications ++ [⟨errWrite "Permission denied", "error"⟩] }
       ∧ ∃ a b, errWrite "Permission denied" = a ++ "Permission denied" ++ b)
    ∧ (check_edit okWrite sampleState (sampleParam true) (some "2") =
        { fs := sampleState.fs
          current_model :=
            get_module_model sampleState.fs sampleState.current_model.module
          notifications := sampleState.notifications ++
            [⟨okUpdated (sampleParam true).name "2", "information"⟩] }
       ∧ (∃ a b, okUpdated (sampleParam true).name "2"
            = a ++ (sampleParam true).name ++ b)
       ∧ (∃ a b, okUpdated (sampleParam true).name "2" = a ++ "2" ++ b)) :=
  ⟨(check_edit_outcomes failWrite sampleState (sampleParam true)).1,
   (check_edit_outcomes failWrite sampleState (sampleParam true)).2.1
     "2" "Permission denied" rfl,
   (check_edit_outcomes okWrite sampleState (sampleParam true)).2.2
     "2" sampleState.fs rfl⟩

/-- C3: invoking the edit action on a parameter whose `writable` field is
false only appends the not-writable warning: no edit prompt is opened (the
result does not depend on what the user would have typed), the write is
never invoked (the result does not depend on the write operation at all),
and the filesystem is untouched. -/
theorem not_writable_rejected (write : Fs → String → String → Except String Fs)
    (st : AppState) (p : MergedParam) (input : Option String)
    (h : p.writable = false) :
    edit_workflow write st (some (some p)) input =
      { st with notifications :=
          st.notifications ++ [⟨warnNotWritable p.name, "warning"⟩] }
    ∧ (edit_workflow write st (some (some p)) input).fs = st.fs
    ∧ (∀ write', edit_workflow write st (some (some p)) input
        = edit_workflow write' st (some (some p)) input)
    ∧ (∀ input', edit_workflow write st (some (some p)) input
        = edit_workflow write st (some (some p)) input') := by
  refine ⟨?_, ?_, fun write' => ?_, fun input' => ?_⟩ <;> simp [edit_workflow, h]

theorem not_writable_rejected_witness :
    edit_workflow failWrite sampleState (some (some (sampleParam false))) (some "2") =
      { sampleState with notifications := sampleState.notifications ++
          [⟨warnNotWritable (sampleParam false).name, "warning"⟩] }
    ∧ (edit_workflow failWrite sampleState
        (some (some (sampleParam false))) (some "2")).fs = sampleState.fs
    ∧ (∀ write', edit_workflow failWrite sampleState
          (some (some (sampleParam false))) (some "2")
        = edit_workflow write' sampleState
            (some (some (sampleParam false))) (some "2"))
    ∧ (∀ input', edit_workflow failWrite sampleState
          (some (some (sampleParam false))) (some "2")
        = edit_workflow failWrite sampleState
            (some (some (sampleParam false))) input') :=
  not_writable_rejected failWrite sampleState (sampleParam false) (some "2") rfl

/-- C1: the model built by `get_module_model` has exactly one record per
live parameter, in the same (name-sorted) order as `read_sysfs_params`
reports them — so a name appearing only in the documentation or persisted
config mappings never appears — and each record carries the documentation
entry (or the fixed sentinel) as description and the config reader's list
(or the empty list) as persisted overrides. -/
theorem model_matches_live_params (fs : Fs) (m : String) :
    List.Forall₂ (fun (r : MergedParam) (p : Param) =>
        r.name = p.name ∧ r.current = p.current ∧ r.writable = p.writable
        ∧ r.path = p.path
        ∧ r.desc = (dlookup (get_modinfo_details fs m) p.name).getD noDescStr
        ∧ r.persistent = (dlookup (get_etc_configs fs m) p.name).getD [])
      (get_module_model fs m).params (read_sysfs_params fs m)
    ∧ ((get_module_model fs m).params.map (fun r => r.name)).Pairwise (· ≤ ·) := by
  constructor
  · simp only [get_module_model, List.forall₂_map_left_iff, List.forall₂_same]
    intro p _
    simp
  · cases h : fs.paramDir m with
    | none => simp [get_module_model, read_sysfs_params, h]
    | some es =>
      have htrans : ∀ a b c : SysfsEntry, byName a b → byName b c → byName a c := by
        intro a b c hab hbc
        simp only [byName, decide_eq_true_eq] at hab hbc ⊢
        exact le_trans hab hbc
      have htotal : ∀ a b : SysfsEntry, byName a b || byName b a := by
        intro a b
        simpa [byName] using le_total a.name b.name
      have hs := List.sorted_mergeSort htrans htotal es
      have hs2 := hs.filter (fun e => e.isFile)
      simp only [get_module_model, read_sysfs_params, h, List.map_map]
      exact hs2.map _ (fun a b hab => by
        simp only [byName, decide_eq_true_eq] at hab
        exact hab)

/-- C7: a failed value read is isolated: the affected entry still yields a
record, whose `current` is exactly the `<Unreadable>` sentinel and whose
`writable` is still computed from the permission bits; and in a directory
where the entries named `n` become unreadable, every sibling record is
byte-for-byte unchanged (the whole output is the old output with only the
`n`-records' `current` replaced). -/
theorem unreadable_isolated (fs : Fs) (m n : String) (es : List SysfsEntry)
    (h : fs.paramDir m = some es) :
    (∀ e : SysfsEntry,
        (sysfsRecord m { e with content := none }).current = unreadableStr
        ∧ (sysfsRecord m { e with content := none }).writable
            = decide (e.mode.land 0o222 ≠ 0))
    ∧ read_sysfs_params (blankFs fs m n es) m
        = (read_sysfs_params fs m).map (blankRecord n) := by
  refine ⟨fun e => ⟨rfl, rfl⟩, ?_⟩
  have hname : ∀ e : SysfsEntry, (blankEntry n e).name = e.name := by
    intro e
    by_cases he : e.name = n <;> simp [blankEntry, he]
  have hfile : ∀ e : SysfsEntry, (blankEntry n e).isFile = e.isFile := by
    intro e
    by_cases he : e.name = n <;> simp [blankEntry, he]
  have hms : (es.map (blankEntry n)).mergeSort byName
      = (es.mergeSort byName).map (blankEntry n) :=
    (List.map_mergeSort (fun a _ b _ => by simp [byName, hname])).symm
  simp only [read_sysfs_params, blankFs, h, if_true]
  rw [hms, List.filter_map]
  have hpf : ((fun e : SysfsEntry => e.isFile) ∘ blankEntry n) =
      fun e : SysfsEntry => e.isFile := by
    funext e
    exact hfile e
  rw [hpf, List.map_map, List.map_map]
  refine List.map_congr_left fun e _ => ?_
  by_cases hcase : e.name = n
  · simp [Function.comp, sysfsRecord, blankEntry, blankRecord, hcase]
  · simp [Function.comp, sysfsRecord, blankEntry, blankRecord, hcase]

theorem unreadable_isolated_witness :
    (∀ e : SysfsEntry,
        (sysfsRecord "mod" { e with content := none }).current = unreadableStr
        ∧ (sysfsRecord "mod" { e with content := none }).writable
            = decide (e.mode.land 0o222 ≠ 0))
    ∧ read_sysfs_params (blankFs sampleFs2 "mod" "p0" [sampleEntry]) "mod"
        = (read_sysfs_params sampleFs2 "mod").map (blankRecord "p0") :=
  unreadable_isolated sampleFs2 "mod" "p0" [sampleEntry] rfl

lemma dlookup_cons {α : Type} (a : String) (b : α)
    (d : List (String × α)) (k : String) :
    dlookup ((a, b) :: d) k = if a = k then some b else dlookup d k := by
  by_cases h : a = k <;> simp [dlookup, List.find?_cons, h]

lemma dlookup_map_update (d : List (String × List OverrideEntry))
    (q : String) (e : OverrideEntry) (k : String) :
    dlookup (d.map (fun p => if p.1 = q then (p.1, p.2 ++ [e]) else p)) k
      = (dlookup d k).map (fun l => if q = k then l ++ [e] else l) := by
  induction d with
  | nil => rfl
  | cons p rest ih =>
    obtain ⟨a, b⟩ := p
    by_cases hq : a = q
    · subst hq
      by_cases hk : a = k
      · subst hk
        simp [dlookup_cons]
      · simp [dlookup_cons, hk, ih]
    · by_cases hk : a = k
      · subst hk
        have hq' : q ≠ a := fun hh => hq hh.symm
        simp [dlookup_cons, hq, hq']
      · simp [dlookup_cons, hq, hk, ih]

lemma getD_dictAppend (d : List (String × List OverrideEntry))
    (q : String) (e : OverrideEntry) (k : String) :
    (dlookup (dictAppend d q e) k).getD []
      = (dlookup d k).getD [] ++ (if q = k then [e] else []) := by
  by_cases hany : d.any (fun p => decide (p.1 = q)) = true
  · rw [dictAppend, if_pos hany, dlookup_map_update]
    by_cases hk : q = k
    · subst hk
      have hsome : (d.find? (fun p => decide (p.1 = q))).isSome :=
        List.find?_isSome.mpr (List.any_eq_true.mp hany)
      obtain ⟨pl, hpl⟩ := Option.isSome_iff_exists.mp hsome
      simp [dlookup, hpl]
    · simp [hk]
  · rw [dictAppend, if_neg hany]
    by_cases hk : q = k
    · subst hk
      have hnone : d.find? (fun p => decide (p.1 = q)) = none := by
        rw [List.find?_eq_none]
        intro x hx hdec
        exact hany (List.any_eq_true.mpr ⟨x, hx, hdec⟩)
      simp [dlookup, List.find?_append, hnone]
    · have hlast : (([(q, [e])] : List (String × List OverrideEntry)).find?
          (fun p => decide (p.1 = k))) = none := by
        simp [hk]
      simp [dlookup, List.find?_append, hlast, Option.or_none, hk]

lemma getD_foldl {β : Type} (k : String)
    (step : List (String × List OverrideEntry) → β → List (String × List OverrideEntry))
    (g : β → List OverrideEntry)
    (hstep : ∀ cfgs b,
      (dlookup (step cfgs b) k).getD [] = (dlookup cfgs k).getD [] ++ g b)
    (l : List β) (cfgs : List (String × List OverrideEntry)) :
    (dlookup (l.foldl step cfgs) k).getD []
      = (dlookup cfgs k).getD [] ++ l.flatMap g := by
  induction l generalizing cfgs with
  | nil => simp
  | cons b bs ih =>
    rw [List.foldl_cons, ih, hstep, List.flatMap_cons, List.append_assoc]

lemma keyed_append (k : String) (l₁ l₂ : List (String × OverrideEntry)) :
    keyed k (l₁ ++ l₂) = keyed k l₁ ++ keyed k l₂ := by
  simp [keyed]

lemma keyed_flatMap {β : Type} (k : String)
    (g : β → List (String × OverrideEntry)) (l : List β) :
    keyed k (l.flatMap g) = l.flatMap (fun b => keyed k (g b)) := by
  induction l with
  | nil => simp [keyed]
  | cons b bs ih => simp [List.flatMap_cons, keyed_append, ih]

lemma token_step (fileName line k : String) (cfgs : List (String × List OverrideEntry))
    (part : String) :
    (dlookup (processConfToken fileName line cfgs part) k).getD []
      = (dlookup cfgs k).getD [] ++ keyed k (tokenOverride fileName line part) := by
  cases hsp : splitFirst part '=' with
  | none => simp [processConfToken, tokenOverride, hsp, keyed]
  | some pr =>
    obtain ⟨pn, pv⟩ := pr
    simp only [processConfToken, tokenOverride, hsp, getD_dictAppend]
    by_cases hk : pn = k <;> simp [keyed, hk]

lemma line_step (m fileName k : String) (cfgs : List (String × List OverrideEntry))
    (raw : String) :
    (dlookup (processConfLine m fileName cfgs raw) k).getD []
      = (dlookup cfgs k).getD [] ++ keyed k (lineOverrides m fileName raw) := by
  unfold processConfLine lineOverrides
  by_cases h1 : pyStrip raw = ""
  · simp [h1, keyed]
  · by_cases h2 : pyStartsWith (pyStrip raw) "#" = true
    · simp [h1, h2, keyed]
    · by_cases h3 : 3 ≤ (pySplitWs (pyStrip raw)).length
          ∧ (pySplitWs (pyStrip raw)).getD 0 "" = "options"
          ∧ (pySplitWs (pyStrip raw)).getD 1 "" = m
      · simp only [if_neg h1, if_neg h2, if_pos h3]
        rw [getD_foldl k (processConfToken fileName (pyStrip raw))
          (fun part => keyed k (tokenOverride fileName (pyStrip raw) part))
          (fun cfgs part => token_step fileName (pyStrip raw) k cfgs part),
          keyed_flatMap]
      · simp only [if_neg h1, if_neg h2, if_neg h3]
        simp [keyed]

/-- C8: the persisted-config reader's per-key result is exactly the
spec's: each readable `*.conf` file is processed line by line, blank and
`#` lines skipped, only `options <module> …` lines with at least three
whitespace tokens and a case-sensitive module match contribute, each
`key=value` token appends `{value, origin file, trimmed line}` in
file-then-line-then-token order, tokens without `=` are ignored, and an
unreadable file is skipped without affecting the others. -/
theorem etc_configs_spec (fs : Fs) (m k : String) (files : List ConfFile)
    (h : fs.modprobeD = some files) :
    (dlookup (get_etc_configs fs m) k).getD [] = specOverrides m files k := by
  have hfile : ∀ (cfgs : List (String × List OverrideEntry)) (f : ConfFile),
      (dlookup ((fun cfgs f =>
          match ConfFile.content f with
          | none => cfgs
          | some lines => lines.foldl (processConfLine m f.name) cfgs) cfgs f) k).getD []
        = (dlookup cfgs k).getD [] ++ keyed k (fileOverrides m f) := by
    intro cfgs f
    cases hc : f.content with
    | none => simp [fileOverrides, hc, keyed]
    | some lines =>
      simp only [fileOverrides, hc]
      rw [getD_foldl k (processConfLine m f.name)
        (fun raw => keyed k (lineOverrides m f.name raw))
        (fun cfgs raw => line_step m f.name k cfgs raw), keyed_flatMap]
  simp only [get_etc_configs, h]
  rw [getD_foldl k _ (fun f => keyed k (fileOverrides m f)) hfile
    (files.filter (fun f => pyEndsWith f.name ".conf")) []]
  simp [dlookup, specOverrides, keyed_flatMap]

theorem etc_configs_spec_witness :
    sampleEtcFs.modprobeD = some sampleConfFiles
    ∧ (dlookup (get_etc_configs sampleEtcFs "e1000e") "InterruptThrottleRate").getD []
        = specOverrides "e1000e" sampleConfFiles "InterruptThrottleRate"
    ∧ specOverrides "e1000e" sampleConfFiles "InterruptThrottleRate"
        = [⟨"3000", "a.conf", "options e1000e InterruptThrottleRate=3000"⟩] :=
  ⟨rfl,
   etc_configs_spec sampleEtcFs "e1000e" "InterruptThrottleRate" sampleConfFiles rfl,
   by decide⟩

lemma extractTop_mem (score : String → String → Nat) (q : String)
    (choices : List String) (lim : Nat) :
    ∀ r ∈ extractTop score q choices lim, r.1 ∈ choices ∧ r.2 = score q r.1 := by
  intro r hr
  unfold extractTop at hr
  have hr' := List.mem_of_mem_take hr
  rw [List.mem_mergeSort] at hr'
  obtain ⟨c, hc, rfl⟩ := List.mem_map.mp hr'
  exact ⟨hc, rfl⟩

lemma extractTop_sorted (score : String → String → Nat) (q : String)
    (choices : List String) (lim : Nat) :
    (extractTop score q choices lim).Pairwise (fun a b => b.2 ≤ a.2) := by
  unfold extractTop
  apply List.Pairwise.sublist (List.take_sublist _ _)
  have htrans : ∀ a b c : String × Nat,
      byScoreDesc a b → byScoreDesc b c → byScoreDesc a c := by
    intro a b c hab hbc
    simp only [byScoreDesc, decide_eq_true_eq] at hab hbc ⊢
    omega
  have htotal : ∀ a b : String × Nat, byScoreDesc a b || byScoreDesc b a := by
    intro a b
    simp only [byScoreDesc, Bool.or_eq_true, decide_eq_true_eq]
    exact Nat.le_total b.2 a.2
  exact (List.sorted_mergeSort htrans htotal _).imp
    (fun hab => by simpa [byScoreDesc] using hab)

lemma extractTop_ne_nil (score : String → String → Nat) (q : String)
    (choices : List String) (lim : Nat) (h : choices ≠ []) (hlim : 0 < lim) :
    extractTop score q choices lim ≠ [] := by
  unfold extractTop
  intro he
  rcases List.take_eq_nil_iff.mp he with h0 | h0
  · omega
  · have := congrArg List.length h0
    simp at this
    exact h this

lemma filter_pairs_map_fst (score : String → String → Nat) (q : String)
    (t : Nat) (l : List (String × Nat)) (hl : ∀ r ∈ l, r.2 = score q r.1) :
    (l.filter (fun r => decide (t ≤ r.2))).map Prod.fst
      = (l.map Prod.fst).filter (fun x => decide (t ≤ score q x)) := by
  induction l with
  | nil => rfl
  | cons r rs ih =>
    have hr2 := hl r (by simp)
    have ih' := ih (fun x hx => hl x (by simp [hx]))
    simp only [List.filter_cons, List.map_cons, hr2]
    by_cases ht : t ≤ score q r.1 <;> simp [ht, ih']

/-- C4: for a non-whitespace query, the filter scores every module with
the similarity metric (range 0–100), keeps at most the 200 best, and:
every returned name is in `M`; the result is in descending-score order;
when some candidate meets the length-dependent threshold (65 for stripped
length ≥ 2, else 50) the result is exactly the thresholded top-200 names;
when none does, it is the top 20 names regardless of score — so the
result is non-empty whenever `M` is. -/
theorem filter_ranking_spec (score : String → String → Nat) (q : String)
    (M : List String) (hq : pyStrip q ≠ "")
    (_hrange : ∀ a b, score a b ≤ 100) :
    (∀ x ∈ filter_modules score q M, x ∈ M)
    ∧ (filter_modules score q M).Pairwise
        (fun a b => score (pyStrip q) b ≤ score (pyStrip q) a)
    ∧ (extractTop score (pyStrip q) M 200).length ≤ 200
    ∧ (((extractTop score (pyStrip q) M 200).map Prod.fst).filter
          (fun x => decide ((if 2 ≤ (pyStrip q).length then 65 else 50)
            ≤ score (pyStrip q) x)) ≠ [] →
        filter_modules score q M
          = ((extractTop score (pyStrip q) M 200).map Prod.fst).filter
              (fun x => decide ((if 2 ≤ (pyStrip q).length then 65 else 50)
                ≤ score (pyStrip q) x)))
    ∧ (((extractTop score (pyStrip q) M 200).map Prod.fst).filter
          (fun x => decide ((if 2 ≤ (pyStrip q).length then 65 else 50)
            ≤ score (pyStrip q) x)) = [] →
        filter_modules score q M
          = ((extractTop score (pyStrip q) M 200).map Prod.fst).take 20)
    ∧ (M ≠ [] → filter_modules score q M ≠ []) := by
  have hkey := filter_pairs_map_fst score (pyStrip q)
    (if 2 ≤ (pyStrip q).length then 65 else 50)
    (extractTop score (pyStrip q) M 200)
    (fun r hr => (extractTop_mem score (pyStrip q) M 200 r hr).2)
  have hfm : filter_modules score q M =
      (if ((extractTop score (pyStrip q) M 200).map Prod.fst).filter
            (fun x => decide ((if 2 ≤ (pyStrip q).length then 65 else 50)
              ≤ score (pyStrip q) x)) = []
        then ((extractTop score (pyStrip q) M 200).map Prod.fst).take 20
        else ((extractTop score (pyStrip q) M 200).map Prod.fst).filter
            (fun x => decide ((if 2 ≤ (pyStrip q).length then 65 else 50)
              ≤ score (pyStrip q) x))) := by
    unfold filter_modules
    rw [if_neg hq]
    simp only [hkey, List.map_take]
  have hmemN : ∀ x ∈ (extractTop score (pyStrip q) M 200).map Prod.fst, x ∈ M := by
    intro x hx
    obtain ⟨r, hr, rfl⟩ := List.mem_map.mp hx
    exact (extractTop_mem score (pyStrip q) M 200 r hr).1
  have hsortN : ((extractTop score (pyStrip q) M 200).map Prod.fst).Pairwise
      (fun a b => score (pyStrip q) b ≤ score (pyStrip q) a) := by
    have hpairs : (extractTop score (pyStrip q) M 200).Pairwise
        (fun a b => score (pyStrip q) b.1 ≤ score (pyStrip q) a.1) :=
      (extractTop_sorted score (pyStrip q) M 200).imp_of_mem
        (fun ha hb hr => by
          rw [(extractTop_mem score (pyStrip q) M 200 _ ha).2,
            (extractTop_mem score (pyStrip q) M 200 _ hb).2] at hr
          exact hr)
    exact hpairs.map Prod.fst (fun a b hab => hab)
  refine ⟨?_, ?_, ?_, ?_, ?_, ?_⟩
  · intro x hx
    rw [hfm] at hx
    by_cases hrk : ((extractTop score (pyStrip q) M 200).map Prod.fst).filter
        (fun x => decide ((if 2 ≤ (pyStrip q).length then 65 else 50)
          ≤ score (pyStrip q) x)) = []
    · rw [if_pos hrk] at hx
      exact hmemN x (List.mem_of_mem_take hx)
    · rw [if_neg hrk] at hx
      exact hmemN x (List.mem_of_mem_filter hx)
  · rw [hfm]
    by_cases hrk : ((extractTop score (pyStrip q) M 200).map Prod.fst).filter
        (fun x => decide ((if 2 ≤ (pyStrip q).length then 65 else 50)
          ≤ score (pyStrip q) x)) = []
    · rw [if_pos hrk]
      exact hsortN.sublist (List.take_sublist _ _)
    · rw [if_neg hrk]
      exact hsortN.filter _
  · unfold extractTop
    exact List.length_take_le _ _
  · intro hne
    rw [hfm, if_neg hne]
  · intro hnil
    rw [hfm, if_pos hnil]
  · intro hM
    rw [hfm]
    have hN : (extractTop score (pyStrip q) M 200).map Prod.fst ≠ [] := by
      intro he
      exact extractTop_ne_nil score (pyStrip q) M 200 hM (by omega)
        (List.map_eq_nil_iff.mp he)
    by_cases hrk : ((extractTop score (pyStrip q) M 200).map Prod.fst).filter
        (fun x => decide ((if 2 ≤ (pyStrip q).length then 65 else 50)
          ≤ score (pyStrip q) x)) = []
    · rw [if_pos hrk]
      intro he
      rcases List.take_eq_nil_iff.mp he with h0 | h0
      · omega
      · exact hN h0
    · rw [if_neg hrk]
      exact hrk

theorem filter_ranking_spec_witness :
    (pyStrip " e1 " ≠ "")
    ∧ (∀ a b : String, (fun _ c : String => min c.length 100) a b ≤ 100)
    ∧ ((∀ x ∈ filter_modules (fun _ c => min c.length 100) " e1 " ["e1000", "ext4"],
          x ∈ ["e1000", "ext4"])
        ∧ (filter_modules (fun _ c => min c.length 100) " e1 " ["e1000", "ext4"]).Pairwise
            (fun a b => (fun _ c : String => min c.length 100) (pyStrip " e1 ") b
              ≤ (fun _ c : String => min c.length 100) (pyStrip " e1 ") a)
        ∧ (extractTop (fun _ c => min c.length 100) (pyStrip " e1 ")
            ["e1000", "ext4"] 200).length ≤ 200
        ∧ (((extractTop (fun _ c => min c.length 100) (pyStrip " e1 ")
              ["e1000", "ext4"] 200).map Prod.fst).filter
              (fun x => decide ((if 2 ≤ (pyStrip " e1 ").length then 65 else 50)
                ≤ (fun _ c : String => min c.length 100) (pyStrip " e1 ") x)) ≠ [] →
            filter_modules (fun _ c => min c.length 100) " e1 " ["e1000", "ext4"]
              = ((extractTop (fun _ c => min c.length 100) (pyStrip " e1 ")
                  ["e1000", "ext4"] 200).map Prod.fst).filter
                  (fun x => decide ((if 2 ≤ (pyStrip " e1 ").length then 65 else 50)
                    ≤ (fun _ c : String => min c.length 100) (pyStrip " e1 ") x)))
        ∧ (((extractTop (fun _ c => min c.length 100) (pyStrip " e1 ")
              ["e1000", "ext4"] 200).map Prod.fst).filter
              (fun x => decide ((if 2 ≤ (pyStrip " e1 ").length then 65 else 50)
                ≤ (fun _ c : String => min c.length 100) (pyStrip " e1 ") x)) = [] →
            filter_modules (fun _ c => min c.length 100) " e1 " ["e1000", "ext4"]
              = ((extractTop (fun _ c => min c.length 100) (pyStrip " e1 ")
                  ["e1000", "ext4"] 200).map Prod.fst).take 20)
        ∧ (["e1000", "ext4"] ≠ ([] : List String) →
            filter_modules (fun _ c => min c.length 100) " e1 " ["e1000", "ext4"] ≠ [])) :=
  ⟨by decide, fun a b => Nat.min_le_right _ _,
   filter_ranking_spec (fun _ c => min c.length 100) " e1 " ["e1000", "ext4"]
     (by decide) (fun a b => Nat.min_le_right _ _)⟩

end KModUI
